import Mathlib

/-!
# Verification of the auto-gemini core against its specification

Shallow embedding of the three core subsystems of the repository:

* the account store (`src/database.py`, class `DBManager`),
* the verification client (`src/sheerid_verifier.py`, class `SheerIDVerifier`),
* the batch orchestrator (`src/auto_all_in_one_gui.py`, class `AutoAllInOneWorker`),

together with the two account-line parsers (`DBManager._simple_parse` and
`AccountManager._parse`).  Python dictionaries are modelled as association
lists with insert-or-overwrite, SQLite rows as a structure with `Option`
fields for nullable columns, wall-clock timestamps as a `Nat` supplied by the
caller, and the network as explicit environment values describing the
responses the service would deliver.  Exceptions are modelled with `Except`
where the control flow of the source depends on them.
-/

set_option autoImplicit false

namespace AutoGemini

/-! ## Account store (`src/database.py`)

One row of the `accounts` table created by `DBManager.init_db`
(lines 50-61): `email` is the primary key, all other text columns are
nullable, `status` defaults to `'pending'`, `updated_at` defaults to the
current timestamp.  The current time is passed explicitly as a `Nat`. -/

structure AccountRow where
  email : String
  password : Option String
  recovery_email : Option String
  secret_key : Option String
  verification_link : Option String
  status : String
  message : Option String
  updated_at : Nat
deriving DecidableEq

/-- `SELECT * FROM accounts WHERE email = ?` followed by `fetchone`
(`upsert_account`, lines 235-236): first row whose key matches. -/
def findAccount (db : List AccountRow) (email : String) : Option AccountRow :=
  db.find? (fun r => r.email = email)

/-- Python `status or 'pending'` in the INSERT branch of `upsert_account`
(line 272): `None` and the empty string are both falsy. -/
def statusOrPending (status : Option String) : String :=
  match status with
  | some s => if s = "" then "pending" else s
  | none => "pending"

/-- Field-level update: a column is assigned only when the argument `is not
None` (`upsert_account`, lines 242-259); otherwise the old value is kept. -/
def pickField (newVal old : Option String) : Option String :=
  match newVal with
  | some v => some v
  | none => old

/-- The UPDATE branch of `upsert_account` (lines 239-266) applied to one row:
exactly the supplied columns are overwritten and `updated_at` is set to the
current timestamp. -/
def updateRow (now : Nat) (password recovery_email secret_key link status message : Option String)
    (r : AccountRow) : AccountRow :=
  { r with
    password := pickField password r.password
    recovery_email := pickField recovery_email r.recovery_email
    secret_key := pickField secret_key r.secret_key
    verification_link := pickField link r.verification_link
    status := match status with
              | some s => s
              | none => r.status
    message := pickField message r.message
    updated_at := now }

/-- Whether at least one optional column was supplied: the list `fields`
built at lines 240-259 is non-empty, so the guarded `UPDATE` at
lines 261-265 actually executes. -/
def anyFieldSupplied (password recovery_email secret_key link status message : Option String) : Bool :=
  password.isSome || recovery_email.isSome || secret_key.isSome ||
    link.isSome || status.isSome || message.isSome

/-- The body of `DBManager.upsert_account` inside the `try` block
(lines 230-276): look the key up; if present run the field-level UPDATE
(skipped entirely, timestamp included, when no field was supplied, because of
the `if fields:` guard at line 261); if absent INSERT a new row whose status
defaults to `'pending'` and whose `updated_at` takes the column default. -/
def upsertBody (now : Nat) (email : String)
    (password recovery_email secret_key link status message : Option String)
    (db : List AccountRow) : List AccountRow :=
  match findAccount db email with
  | some _ =>
      if anyFieldSupplied password recovery_email secret_key link status message then
        db.map (fun r =>
          if r.email = email then updateRow now password recovery_email secret_key link status message r
          else r)
      else db
  | none =>
      db ++ [{ email := email
               password := password
               recovery_email := recovery_email
               secret_key := secret_key
               verification_link := link
               status := statusOrPending status
               message := message
               updated_at := now }]

/-- Environment of one `upsert_account` call: whether the underlying SQLite
layer (connect / execute / commit) raises. -/
structure DbEnv where
  storageFails : Bool
deriving DecidableEq

/-- `DBManager.upsert_account` (lines 210-280).  An empty email returns
early (line 225).  The whole storage interaction is wrapped in
`try ... except Exception` (lines 229-280) whose handler only prints and
falls through, so a storage failure never re-raises: the function always
returns normally (`Except.ok`), with the store unmodified when the storage
layer raised (nothing was committed). -/
def upsert_account (env : DbEnv) (now : Nat) (email : String)
    (password recovery_email secret_key link status message : Option String)
    (db : List AccountRow) : Except String (List AccountRow) :=
  if email = "" then Except.ok db
  else if env.storageFails then Except.ok db
  else Except.ok (upsertBody now email password recovery_email secret_key link status message db)

/-! ## Store export (`DBManager.export_to_files`, lines 329-408) -/

/-- The account line built at lines 367-374: start from the email and append
`----field` for each of password, recovery email, secret key that is truthy
(not NULL and not empty). -/
def appendField (acc : String) (field : Option String) : String :=
  match field with
  | some v => if v = "" then acc else acc ++ "----" ++ v
  | none => acc

def lineAcc (r : AccountRow) : String :=
  appendField (appendField (appendField r.email r.password) r.recovery_email) r.secret_key

/-- Accumulator mirroring the `data` dict (keys of `files_map`) plus the
separate `pending_data` list of `export_to_files`. -/
structure ExportAcc where
  link_ready : List String
  verified : List String
  subscribed : List String
  ineligible : List String
  error : List String
  pending : List String
deriving DecidableEq

/-- The grouping loop of `export_to_files` (lines 361-386): transitional
statuses `running`/`processing` are skipped; `link_ready` rows go to the link
file (when a truthy link is stored, prefixed by it) and always to the pending
file; the four other recognized statuses collect the plain account line; any
other status contributes to no view. -/
def exportGroup : List AccountRow → ExportAcc → ExportAcc
  | [], acc => acc
  | r :: rest, acc =>
      if r.status = "running" || r.status = "processing" then
        exportGroup rest acc
      else
        let la := lineAcc r
        let acc2 :=
          if r.status = "link_ready" then
            let acc1 :=
              match r.verification_link with
              | some lk =>
                  if lk = "" then acc
                  else { acc with link_ready := acc.link_ready ++ [lk ++ "----" ++ la] }
              | none => acc
            { acc1 with pending := acc1.pending ++ [la] }
          else if r.status = "verified" then { acc with verified := acc.verified ++ [la] }
          else if r.status = "subscribed" then { acc with subscribed := acc.subscribed ++ [la] }
          else if r.status = "ineligible" then { acc with ineligible := acc.ineligible ++ [la] }
          else if r.status = "error" then { acc with error := acc.error ++ [la] }
          else acc
        exportGroup rest acc2

/-- File contents written at lines 389-401: every collected line followed by
a newline, written in mode `'w'` (full overwrite, empty list truncates the
file to empty). -/
def fileContent (lines : List String) : String :=
  String.join (lines.map (fun l => l ++ "\n"))

/-- `DBManager.export_to_files` as a transformer of the file system, modelled
as a total map from file name to contents.  The six view files are fully
overwritten from the grouped store contents; every other file is left
untouched. -/
def export_to_files (rows : List AccountRow) (fs : String → String) : String → String :=
  let g := exportGroup rows ⟨[], [], [], [], [], []⟩
  fun name =>
    if name = "sheerIDlink.txt" then fileContent g.link_ready
    else if name = "verified_no_card.txt" then fileContent g.verified
    else if name = "subscribed.txt" then fileContent g.subscribed
    else if name = "ineligible.txt" then fileContent g.ineligible
    else if name = "error.txt" then fileContent g.error
    else if name = "eligible_pending.txt" then fileContent g.pending
    else fs name

/-! ## Account-line parsers (`DBManager._simple_parse` and
`AccountManager._parse`)

Both parsers are embedded over `List Char` with structurally recursive
string helpers mirroring the Python primitives they use (`str.strip`,
`str.split`, `str.replace`, substring containment, and the regex search
`https?://[^\s]+`), so that concrete runs reduce in the kernel. -/

/-- Python `\s` on ASCII text (also the set stripped by `str.strip`). -/
def isSpaceChar (c : Char) : Bool :=
  c = ' ' || c = '\t' || c = '\n' || c = '\r' || c = '\x0b' || c = '\x0c'

/-- Python `str.strip()`. -/
def trimChars (l : List Char) : List Char :=
  ((l.dropWhile isSpaceChar).reverse.dropWhile isSpaceChar).reverse

/-- Worker for `splitSep`, fuel-indexed so recursion is structural
(the fuel is an upper bound on the input length, never exhausted). -/
def splitSepF (sep : List Char) : Nat → List Char → List Char → List (List Char)
  | _, acc, [] => [acc.reverse]
  | 0, acc, l => [acc.reverse ++ l]
  | fuel + 1, acc, c :: rest =>
      if sep.isPrefixOf (c :: rest) && !sep.isEmpty then
        acc.reverse :: splitSepF sep fuel [] ((c :: rest).drop sep.length)
      else splitSepF sep fuel (c :: acc) rest

/-- Python `str.split(sep)` for a non-empty separator: non-overlapping,
leftmost-first. -/
def splitSep (sep l : List Char) : List (List Char) :=
  splitSepF sep l.length [] l

/-- Worker for `removeAll`, fuel-indexed like `splitSepF`. -/
def removeAllF (pat : List Char) : Nat → List Char → List Char
  | _, [] => []
  | 0, l => l
  | fuel + 1, c :: rest =>
      if pat.isPrefixOf (c :: rest) && !pat.isEmpty then
        removeAllF pat fuel ((c :: rest).drop pat.length)
      else c :: removeAllF pat fuel rest

/-- Python `line.replace(pat, '')`: delete every non-overlapping occurrence,
left to right. -/
def removeAll (pat l : List Char) : List Char :=
  removeAllF pat l.length l

/-- Python `sub in s` substring containment. -/
def containsSub (sub : List Char) : List Char → Bool
  | [] => sub.isEmpty
  | c :: rest => sub.isPrefixOf (c :: rest) || containsSub sub rest

/-- `re.search(r'https?://[^\s]+', line)` (`_simple_parse`, line 97):
leftmost position where `http://` or `https://` starts with at least one
non-whitespace character after the protocol, matched greedily up to the next
whitespace character. -/
def findUrl : List Char → Option (List Char)
  | [] => none
  | c :: rest =>
      let tok := (c :: rest).takeWhile (fun x => !isSpaceChar x)
      if "https://".toList.isPrefixOf (c :: rest) && decide (8 < tok.length) then some tok
      else if "http://".toList.isPrefixOf (c :: rest) && decide (7 < tok.length) then some tok
      else findUrl rest

/-- `DBManager._simple_parse` (`src/database.py`, lines 74-131): strip an
inline comment, return all-`None` on an empty line, cut out the first
URL-regex match as the link, choose a separator (`----`, falling back to
`---`, `|`, `,`, `;`, tab), split, strip and drop empty parts, and assign
email/password/recovery/secret positionally.  Returns
`(email, password, recovery_email, secret_key, link)`. -/
def simple_parse (line0 : List Char) :
    Option (List Char) × Option (List Char) × Option (List Char) ×
      Option (List Char) × Option (List Char) :=
  let line1 :=
    if containsSub "#".toList line0 then trimChars (line0.takeWhile (fun c => c != '#'))
    else line0
  if line1.isEmpty then (none, none, none, none, none)
  else
    let link := findUrl line1
    let line2 :=
      match link with
      | some lk => trimChars (removeAll lk line1)
      | none => line1
    let separator :=
      if containsSub "----".toList line2 then "----".toList
      else if containsSub "---".toList line2 then "---".toList
      else if containsSub "|".toList line2 then "|".toList
      else if containsSub ",".toList line2 then ",".toList
      else if containsSub ";".toList line2 then ";".toList
      else if containsSub "\t".toList line2 then "\t".toList
      else "----".toList
    let parts := ((splitSep separator line2).map trimChars).filter (fun p => !p.isEmpty)
    (parts[0]?, parts[1]?, parts[2]?, parts[3]?, link)

/-- The email-scanning loop of `AccountManager._parse` (lines 46-55): the
first part containing both `@` and `.` is the email and the following three
parts, when present, are password, recovery email and secret. -/
def findEmailParts : List (List Char) →
    Option (List Char) × Option (List Char) × Option (List Char) × Option (List Char)
  | [] => (none, none, none, none)
  | p :: rest =>
      if p.contains '@' && p.contains '.' then (some p, rest[0]?, rest[1]?, rest[2]?)
      else findEmailParts rest

/-- `AccountManager._parse` (`src/account_manager.py`, lines 18-57): split on
`----`, strip and drop empty parts, treat a first part containing `http` as
the pre-captured verification link and strip it from the field list, then
locate the email by scanning.  Returns
`(email, password, recovery_email, secret_key, link)`. -/
def am_parse (line : List Char) :
    Option (List Char) × Option (List Char) × Option (List Char) ×
      Option (List Char) × Option (List Char) :=
  let parts := ((splitSep "----".toList line).map trimChars).filter (fun p => !p.isEmpty)
  match parts with
  | [] => (none, none, none, none, none)
  | p0 :: rest =>
      if containsSub "http".toList p0 then
        let r := findEmailParts rest
        (r.1, r.2.1, r.2.2.1, r.2.2.2, some p0)
      else
        let r := findEmailParts (p0 :: rest)
        (r.1, r.2.1, r.2.2.1, r.2.2.2, none)

/-! ## Batch orchestrator (`AutoAllInOneWorker._process_all`,
`src/auto_all_in_one_gui.py`, lines 49-97)

The run is modelled without a stop request (`self.is_running` stays true):
the claims describe complete runs.  `cards_per_account` is `cap`,
`thread_count` is `k`.  Browser/UI work inside each dispatched task is
outside the orchestrator's assignment logic and is not modelled. -/

/-- The two counters threaded through `_process_all`: `card_index` and
`card_usage_count` (lines 51-52). -/
structure OrchState where
  cardIndex : Nat
  cardUsage : Nat
deriving DecidableEq

/-- The per-batch task-building loop (lines 67-93): for each account of the
batch, first advance to the next card when the usage cap is reached
(lines 72-75), then stop the whole loop when the pool is exhausted
(lines 78-80), otherwise create a task carrying the current card
(lines 82-93) and count one usage.  Returns the final counters and the list
of `(account, card index)` pairs actually dispatched, in order. -/
def assignBatch {α κ : Type} (cards : List κ) (cap : Nat) :
    OrchState → List α → OrchState × List (α × Nat)
  | st, [] => (st, [])
  | st, a :: rest =>
      let st1 := if cap ≤ st.cardUsage then OrchState.mk (st.cardIndex + 1) 0 else st
      if cards.length ≤ st1.cardIndex then (st1, [])
      else
        let out := assignBatch cards cap ⟨st1.cardIndex, st1.cardUsage + 1⟩ rest
        (out.1, (a, st1.cardIndex) :: out.2)

/-- Fuel-indexed worker for `chunks`; the fuel bounds the number of chunks
and is never exhausted for a positive chunk size. -/
def chunksF {α : Type} (k : Nat) : Nat → List α → List (List α)
  | _, [] => []
  | 0, _ :: _ => []
  | fuel + 1, a :: l => (a :: l).take k :: chunksF k fuel ((a :: l).drop k)

/-- The slicing loop `for batch_start in range(0, len(accounts), k)` with
`accounts[batch_start:batch_start+k]` (lines 55-60): contiguous groups of
size `k`, the final group possibly smaller. -/
def chunks {α : Type} (k : Nat) (l : List α) : List (List α) :=
  chunksF k l.length l

/-- Observable events of one orchestration run: dispatching one account with
the index of its assigned card, and the completion of one group's
`asyncio.gather` (the group barrier, line 97). -/
inductive OrchEvent (α : Type) where
  | dispatch (a : α) (cardIdx : Nat)
  | barrier
deriving DecidableEq

/-- Events of one group: its dispatches followed by the group barrier; the
`gather` is only awaited when the task list is non-empty (`if tasks:`,
line 96). -/
def batchEvents {α : Type} (ds : List (α × Nat)) : List (OrchEvent α) :=
  ds.map (fun p => OrchEvent.dispatch p.1 p.2) ++
    (if ds.isEmpty then [] else [OrchEvent.barrier])

/-- The outer batch loop of `_process_all`: one event segment per group, the
card counters threaded across groups. -/
def groupTraces {α κ : Type} (cards : List κ) (cap : Nat) :
    OrchState → List (List α) → List (List (OrchEvent α))
  | _, [] => []
  | st, b :: rest =>
      let out := assignBatch cards cap st b
      batchEvents out.2 :: groupTraces cards cap out.1 rest

/-- `AutoAllInOneWorker._process_all` as an event trace: partition the
accounts into groups of size `k`, then run the groups in order, each group's
events before the next group's (the `await asyncio.gather` barrier). -/
def process_all {α κ : Type} (cards : List κ) (cap k : Nat) (accounts : List α) :
    List (OrchEvent α) :=
  (groupTraces cards cap ⟨0, 0⟩ (chunks k accounts)).flatten

/-- The dispatched `(account, card index)` pairs of a trace, in order. -/
def dispatchPairs {α : Type} (t : List (OrchEvent α)) : List (α × Nat) :=
  t.filterMap (fun e =>
    match e with
    | OrchEvent.dispatch a i => some (a, i)
    | OrchEvent.barrier => none)

/-- Specification-shaped form of the assignment policy, used to prove facts
about `assignBatch`: with `m` the total capacity of the pool
(`cards.length * cap`) and `v` the number of usages consumed so far, each
further account is accepted while `v < m` and assigned card `v / cap`. -/
def assignSpec {α : Type} (m cap : Nat) : Nat → List α → List (α × Nat)
  | _, [] => []
  | v, a :: rest => if v < m then (a, v / cap) :: assignSpec m cap (v + 1) rest else []

/-! ## Verification client (`SheerIDVerifier`, `src/sheerid_verifier.py`)

The stream and poll payloads are modelled at the granularity of successfully
decoded JSON objects: blank lines, lines without the `data:` prefix and
undecodable JSON are skipped by the source (lines 162-172) leaving `results`
untouched, so they are not represented.  The network is an explicit
environment: what each HTTP interaction would return. -/

/-- One decoded JSON payload of the SSE stream or of a poll response:
`data.get("verificationId")`, `data.get("currentStep")`,
`data.get("message", "")`, and the optional `checkToken` key. -/
structure ApiData where
  verificationId : Option String
  currentStep : Option String
  message : String
  checkToken : Option String
deriving DecidableEq

/-- A value of the result dictionary returned by `verify_batch`: either a
payload received from the API (terminal stream event or terminal poll
response) or a locally built `{"status": "error", "message": msg}` dict
(lines 152, 156-158, 176-178, 263). -/
inductive VerifyResult where
  | fromApi (d : ApiData)
  | errorMsg (message : String)
deriving DecidableEq

/-- Outcome of one poll attempt's HTTP interaction (`_poll_status`,
lines 228-261): a decoded JSON reply, a `requests` timeout, or any other
exception. -/
inductive PollAttempt where
  | reply (d : ApiData)
  | timeout
  | exn (msg : String)
deriving DecidableEq

/-- `status == "success" or status == "error"` (lines 206, 242). -/
def isTerminalStep (s : Option String) : Bool :=
  s = some "success" || s = some "error"

/-- Python f-string rendering of a possibly-`None` step value. -/
def optStr : Option String → String
  | some s => s
  | none => "None"

/-- One attempt of the polling loop as observed from outside: the
continuation token sent and what came back. -/
structure PollEntry where
  tokenSent : String
  outcome : PollAttempt
deriving DecidableEq

/-- Result of one `_poll_status` run: the returned result, the attempts
performed in order, the messages passed to the progress callback (one per
attempt), and the total time slept (`time.sleep(2)` per attempt). -/
structure PollRun where
  result : VerifyResult
  trace : List PollEntry
  cbs : List String
  elapsed : Nat
deriving DecidableEq

/-- The loop body of `_poll_status` (lines 227-261), structurally recursive
on the remaining attempts `rem` with `i` the 0-based attempt index: sleep 2,
send the current token, invoke the callback (in the normal path after
decoding, in the two `except` branches otherwise), return the payload on a
terminal step, replace the token when the reply carries a `checkToken`, and
treat timeouts and other exceptions as transient (`continue`). -/
def pollAux (env : Nat → String → PollAttempt) (vid : String) :
    Nat → Nat → String → PollRun
  | 0, _, _ => ⟨VerifyResult.errorMsg "Polling timeout (120s)", [], [], 0⟩
  | rem + 1, i, tok =>
      match env i tok with
      | PollAttempt.reply d =>
          let cb := "Polling: " ++ optStr d.currentStep ++ " (" ++ toString (i + 1) ++
            "/60) | Msg: " ++ d.message
          if isTerminalStep d.currentStep then
            ⟨VerifyResult.fromApi d, [⟨tok, PollAttempt.reply d⟩], [cb], 2⟩
          else
            let tok2 :=
              match d.checkToken with
              | some t => t
              | none => tok
            let r := pollAux env vid rem (i + 1) tok2
            ⟨r.result, ⟨tok, PollAttempt.reply d⟩ :: r.trace, cb :: r.cbs, 2 + r.elapsed⟩
      | PollAttempt.timeout =>
          let cb := "Polling: timeout (retrying " ++ toString (i + 1) ++ "/60)"
          let r := pollAux env vid rem (i + 1) tok
          ⟨r.result, ⟨tok, PollAttempt.timeout⟩ :: r.trace, cb :: r.cbs, 2 + r.elapsed⟩
      | PollAttempt.exn m =>
          let cb := "Polling error: " ++ m.take 50 ++ " (retrying " ++ toString (i + 1) ++ "/60)"
          let r := pollAux env vid rem (i + 1) tok
          ⟨r.result, ⟨tok, PollAttempt.exn m⟩ :: r.trace, cb :: r.cbs, 2 + r.elapsed⟩

/-- `SheerIDVerifier._poll_status` (lines 210-263): at most 60 attempts
(`for i in range(60)`), returning the timeout error when the budget is
exhausted. -/
def poll_status (env : Nat → String → PollAttempt) (checkToken vid : String) : PollRun :=
  pollAux env vid 60 0 checkToken

/-- Whether an attempt outcome is a decoded reply with a terminal step. -/
def isReplyTerminal : PollAttempt → Bool
  | PollAttempt.reply d => isTerminalStep d.currentStep
  | _ => false

/-- The continuation token the loop would send after the given attempt:
replaced exactly when the reply carried a `checkToken` (lines 246-247),
unchanged on timeouts and exceptions. -/
def nextToken (e : PollEntry) : String :=
  match e.outcome with
  | PollAttempt.reply d =>
      match d.checkToken with
      | some t => t
      | none => e.tokenSent
  | _ => e.tokenSent

/-- The tokens sent form the chain started by the initial token and advanced
by `nextToken`. -/
def tokenChain (tok : String) : List PollEntry → Bool
  | [] => true
  | e :: rest => e.tokenSent = tok && tokenChain (nextToken e) rest

/-- Only the last attempt of a trace may be a terminal reply. -/
def wellFormedTrace : List PollEntry → Bool
  | [] => true
  | [_] => true
  | e :: rest => !isReplyTerminal e.outcome && wellFormedTrace rest

/-! ### `verify_batch` (lines 96-208) -/

/-- Python dict insert-or-overwrite, insertion order preserved. -/
def dput (k : String) (v : VerifyResult) :
    List (String × VerifyResult) → List (String × VerifyResult)
  | [] => [(k, v)]
  | (k2, v2) :: rest => if k2 = k then (k, v) :: rest else (k2, v2) :: dput k v rest

/-- Python dict lookup. -/
def dget (k : String) : List (String × VerifyResult) → Option VerifyResult
  | [] => none
  | (k2, v2) :: rest => if k2 = k then some v2 else dget k rest

/-- Python `k in results`. -/
def dhas (k : String) (m : List (String × VerifyResult)) : Bool :=
  (dget k m).isSome

/-- What one `session.post` of the batch submission would produce: the
request itself raising, or a response with a status code, the text used for
error messages, the decoded stream events, and — when the stream is cut off
by an exception after delivering those events — the exception message. -/
inductive PostResponse where
  | connError (msg : String)
  | resp (code : Nat) (body : String) (events : List ApiData) (interrupted : Option String)
deriving DecidableEq

/-- Environment of one `verify_batch` call: outcome of the initial CSRF
refresh (line 109, failure only logged), the first POST, the forced refresh
of the auth-retry path (line 142), the retry POST, and the poll responses
per verification id. -/
structure BatchEnv where
  refresh1 : Bool
  post1 : PostResponse
  refresh2 : Bool
  post2 : PostResponse
  pollEnv : String → Nat → String → PollAttempt

/-- `SheerIDVerifier._handle_api_response` (lines 182-208): payloads without
a `verificationId` are dropped; a `pending` step with a `checkToken` hands
the id to the polling loop and records its final result; a terminal step
records the payload itself; anything else (including `pending` without a
token) records nothing.  The per-event progress callback (lines 198-199) is
not modelled here; the poll-side callbacks are part of `PollRun`. -/
def handle_api_response (pollEnv : String → Nat → String → PollAttempt) (d : ApiData)
    (results : List (String × VerifyResult)) : List (String × VerifyResult) :=
  match d.verificationId with
  | none => results
  | some vid =>
      if d.currentStep = some "pending" ∧ d.checkToken.isSome = true then
        dput vid (poll_status (pollEnv vid) (d.checkToken.getD "") vid).result results
      else if d.currentStep = some "success" ∨ d.currentStep = some "error" then
        dput vid (VerifyResult.fromApi d) results
      else results

/-- The SSE consumption loop (lines 162-172) over the decoded events. -/
def processStream (pollEnv : String → Nat → String → PollAttempt) (evs : List ApiData)
    (results : List (String × VerifyResult)) : List (String × VerifyResult) :=
  evs.foldl (fun m d => handle_api_response pollEnv d m) results

/-- The `except` handler of `verify_batch` (lines 174-178): every submitted
id not already in `results` receives an error entry with the exception
text. -/
def fillMissing (ids : List String) (msg : String)
    (results : List (String × VerifyResult)) : List (String × VerifyResult) :=
  ids.foldl (fun m vid => if dhas vid m then m else dput vid (VerifyResult.errorMsg msg) m)
    results

/-- The dict comprehensions `{vid: {"status": "error", ...} for vid in
verification_ids}` (lines 152, 158). -/
def allError (ids : List String) (msg : String) : List (String × VerifyResult) :=
  ids.foldl (fun m vid => dput vid (VerifyResult.errorMsg msg) m) []

/-- Processing of the response that survives the auth check (lines 154-172):
a non-200 status yields an error entry for every id; a 200 response streams
its events; an exception cutting the stream short fills the missing ids with
the exception text, while a cleanly ended stream returns whatever the events
produced — with no filling. -/
def finishResp (pollEnv : String → Nat → String → PollAttempt) (ids : List String)
    (code : Nat) (body : String) (evs : List ApiData) (interrupted : Option String) :
    List (String × VerifyResult) :=
  if code ≠ 200 then allError ids ("HTTP " ++ toString code ++ ": " ++ body.take 200)
  else
    let r := processStream pollEnv evs []
    match interrupted with
    | some m => fillMissing ids m r
    | none => r

/-- `SheerIDVerifier.verify_batch` (lines 96-180), returning the result
dictionary and the number of `session.post` submissions performed.  A
connection error on a POST is caught by the outer `except`, which fills every
missing id.  A 403/401 first response triggers exactly one retry after a
forced token refresh (lines 140-150); if that refresh fails, every id gets
the `"Token expired and refresh failed"` error (line 152); the retry
response is not auth-checked again — any non-200 outcome, 403/401 included,
falls into the generic HTTP-error path (lines 155-158). -/
def verify_batch (env : BatchEnv) (ids : List String) :
    List (String × VerifyResult) × Nat :=
  match env.post1 with
  | PostResponse.connError m => (fillMissing ids m [], 1)
  | PostResponse.resp code body evs intr =>
      if code = 403 ∨ code = 401 then
        if env.refresh2 then
          match env.post2 with
          | PostResponse.connError m => (fillMissing ids m [], 2)
          | PostResponse.resp code2 body2 evs2 intr2 =>
              (finishResp env.pollEnv ids code2 body2 evs2 intr2, 2)
        else (allError ids "Token expired and refresh failed", 1)
      else (finishResp env.pollEnv ids code body evs intr, 1)

/-- The run reaches the stream-consumption loop and the stream ends without
an exception: the decoded events of that clean stream, `none` in every other
case (connection error, failed forced refresh, non-200 response, or a stream
cut off by an exception). -/
def cleanEvents (env : BatchEnv) : Option (List ApiData) :=
  match env.post1 with
  | PostResponse.connError _ => none
  | PostResponse.resp code _ evs intr =>
      if code = 403 ∨ code = 401 then
        if env.refresh2 then
          match env.post2 with
          | PostResponse.connError _ => none
          | PostResponse.resp code2 _ evs2 intr2 =>
              if code2 = 200 ∧ intr2 = none then some evs2 else none
        else none
      else if code = 200 ∧ intr = none then some evs else none

/-- Whether one stream event makes `_handle_api_response` record an entry
for `vid`: it is tagged with `vid` and carries either a terminal step or a
pending step with a continuation token. -/
def yieldsResult (vid : String) (d : ApiData) : Bool :=
  d.verificationId = some vid &&
    (d.currentStep = some "success" || d.currentStep = some "error" ||
      (d.currentStep = some "pending" && d.checkToken.isSome))

/-- Poll environment answering every attempt with a network timeout. -/
def trivialPollEnv : String → Nat → String → PollAttempt :=
  fun _ _ _ => PollAttempt.timeout

/-- C1 counterexample environment: the submission succeeds with HTTP 200 and
the stream ends cleanly after delivering no events at all. -/
def c1Env : BatchEnv :=
  { refresh1 := true
    post1 := PostResponse.resp 200 "" [] none
    refresh2 := true
    post2 := PostResponse.resp 200 "" [] none
    pollEnv := trivialPollEnv }

/-- A terminal success event for id `a1`. -/
def c1SuccessEvent : ApiData :=
  { verificationId := some "a1", currentStep := some "success", message := "ok",
    checkToken := none }

/-- C1 witness environment: a clean stream delivering a terminal success
event for the submitted id. -/
def c1WitnessEnv : BatchEnv :=
  { refresh1 := true
    post1 := PostResponse.resp 200 "" [c1SuccessEvent] none
    refresh2 := true
    post2 := PostResponse.resp 200 "" [] none
    pollEnv := trivialPollEnv }

/-- C2 witness environment: 403 on the first submission, successful forced
refresh, then 403 again on the retry. -/
def c2Env : BatchEnv :=
  { refresh1 := true
    post1 := PostResponse.resp 403 "denied1" [] none
    refresh2 := true
    post2 := PostResponse.resp 403 "denied2" [] none
    pollEnv := trivialPollEnv }

/-- C3 witness payload: a terminal success poll reply. -/
def c3Data : ApiData :=
  { verificationId := none, currentStep := some "success", message := "done",
    checkToken := none }

/-- C3 witness poll environment: a network timeout on the first attempt,
then a terminal success. -/
def c3Env : Nat → String → PollAttempt :=
  fun i _ => if i = 0 then PollAttempt.timeout else PollAttempt.reply c3Data

/-! ## The link_ready handler (`AutoAllInOneWorker._handle_link_ready`,
`src/auto_all_in_one_gui.py`, lines 247-324) -/

/-- The methods defined by `class SheerIDVerifier`
(`src/sheerid_verifier.py`, lines 21-292). -/
def sheerIDVerifierMethods : List String :=
  ["__init__", "_get_csrf_token", "verify_batch", "_handle_api_response",
   "_poll_status", "cancel_verification"]

/-- Python attribute lookup on a `SheerIDVerifier` instance for a method
name: an `AttributeError` is raised when the class defines no such method. -/
def getattrSheerIDVerifier (name : String) : Except String Unit :=
  if sheerIDVerifierMethods.contains name then Except.ok ()
  else Except.error
    ("AttributeError: SheerIDVerifier object has no attribute " ++ name)

/-- `AutoAllInOneWorker._handle_link_ready` (lines 247-324).  The link
extraction (lines 253-287) is abstracted to its outcome `link`; with no link
the handler returns the failure at line 290.  Otherwise it saves the link
and evaluates `verifier.verify_single` (line 304) — an attribute lookup that
raises, is caught by the enclosing `except Exception` (line 323), and turns
into a failure result.  `onVerifySingle` stands for what the handler would
return if the method existed and were called (the continuation of
lines 303-321, including `move_to_verified` and the card-binding step). -/
def handle_link_ready (link : Option String) (onVerifySingle : Bool × String) :
    Bool × String :=
  match link with
  | none => (false, "Cannot extract SheerID link")
  | some _ =>
      match getattrSheerIDVerifier "verify_single" with
      | Except.error e => (false, "Error handling link_ready status: " ++ e)
      | Except.ok _ => onVerifySingle

/-! ### Claim C9 -/

/-- The spec's example account line. -/
def c9Line : List Char :=
  "https://svc/verify?x=1----user@x.com----pw----rec----otp".toList

/-- C9: on the spec's example line, `AccountManager._parse` returns exactly
the claimed fields (leading URL token stripped as the link, remaining fields
in fixed order), but `DBManager._simple_parse` does **not**: its URL regex
`https?://[^\s]+` greedily consumes the entire whitespace-free line, so the
whole line becomes the link and no identifier at all is extracted. -/
theorem parse_example_line :
    am_parse c9Line
      = (some "user@x.com".toList, some "pw".toList, some "rec".toList,
         some "otp".toList, some "https://svc/verify?x=1".toList) ∧
    simple_parse c9Line = (none, none, none, none, some c9Line) := by
  constructor <;> rfl

/-! ### Store lemmas -/

theorem findAccount_map_update (db : List AccountRow) (email : String) (now : Nat)
    (password recovery_email secret_key link status message : Option String) :
    findAccount
      (db.map (fun r =>
        if r.email = email then updateRow now password recovery_email secret_key link status message r
        else r)) email
      = (findAccount db email).map
          (updateRow now password recovery_email secret_key link status message) := by
  induction db with
  | nil => rfl
  | cons r rest ih =>
      by_cases h : r.email = email
      · simp [findAccount, List.find?, h, updateRow]
      · simpa [findAccount, List.find?, h] using ih

/-! ### Claim C6 -/

/-- Row used in the C6 counterexample: an existing record whose timestamp
is `0`. -/
def c6Row : AccountRow :=
  { email := "a@b.c", password := some "p", recovery_email := none, secret_key := none,
    verification_link := none, status := "pending", message := none, updated_at := 0 }

/-- C6 counterexample: an upsert of an existing record that supplies no
field beyond the identifier is a complete no-op — the `if fields:` guard
skips the UPDATE, so the `updated_at` timestamp does **not** advance (here it
stays `0` although the call happens at time `7`), contradicting the claim
that the timestamp advances on every such call. -/
theorem upsert_noField_timestamp_not_advanced :
    upsert_account ⟨false⟩ 7 "a@b.c" none none none none none none [c6Row]
      = Except.ok [c6Row] ∧ c6Row.updated_at ≠ 7 := by
  constructor
  · rfl
  · decide

/-- C6 (amended): for an upsert with a non-empty identifier on an existing
record and working storage, if at least one field is supplied then exactly
the supplied fields are updated, unsupplied fields keep their prior values,
and the timestamp is set to the time of the call — an immediately following
read returns exactly that; if no field is supplied the call leaves the store
(timestamp included) completely unchanged. -/
theorem upsert_frame_effect (now : Nat) (email : String)
    (password recovery_email secret_key link status message : Option String)
    (db : List AccountRow) (row : AccountRow)
    (hmail : email ≠ "") (hfind : findAccount db email = some row) :
    (anyFieldSupplied password recovery_email secret_key link status message = true →
      ∃ db', upsert_account ⟨false⟩ now email password recovery_email secret_key link status message db
               = Except.ok db' ∧
             findAccount db' email
               = some (updateRow now password recovery_email secret_key link status message row)) ∧
    (anyFieldSupplied password recovery_email secret_key link status message = false →
      upsert_account ⟨false⟩ now email password recovery_email secret_key link status message db
        = Except.ok db) := by
  constructor
  · intro hany
    refine ⟨upsertBody now email password recovery_email secret_key link status message db, ?_, ?_⟩
    · simp [upsert_account, hmail]
    · simp only [upsertBody, hfind, hany, if_pos]
      rw [findAccount_map_update, hfind]
      rfl
  · intro hnone
    simp [upsert_account, hmail, upsertBody, hfind, hnone]

/-- Witness for C6 (amended): updating only the password of `c6Row` at time
`9` yields a read-back with the new password, all other fields unchanged and
timestamp `9`; and the no-field upsert leaves the store unchanged. -/
theorem upsert_frame_effect_witness :
    (∃ db', upsert_account ⟨false⟩ 9 "a@b.c" (some "q") none none none none none [c6Row]
              = Except.ok db' ∧
            findAccount db' "a@b.c"
              = some (updateRow 9 (some "q") none none none none none c6Row)) ∧
    upsert_account ⟨false⟩ 9 "a@b.c" none none none none none none [c6Row]
      = Except.ok [c6Row] :=
  ⟨(upsert_frame_effect 9 "a@b.c" (some "q") none none none none none [c6Row] c6Row
      (by decide) (by decide)).1 (by decide),
   (upsert_frame_effect 9 "a@b.c" none none none none none none [c6Row] c6Row
      (by decide) (by decide)).2 (by decide)⟩

/-! ### Claim C7 -/

/-- C7 counterexample: with the storage layer raising, `upsert_account` does
**not** surface the failure — the `except` handler at lines 277-280 swallows
it and the call returns normally, so no exception propagates to the caller. -/
theorem upsert_storage_failure_not_raised :
    ¬ ∃ e, upsert_account ⟨true⟩ 5 "a@b.c" (some "p") none none none none none []
             = Except.error e := by
  intro h
  obtain ⟨e, he⟩ := h
  simp [upsert_account] at he

/-- C7 (amended): whenever the underlying storage raises during an upsert,
the exception is caught inside `upsert_account`, the call returns normally,
and the store is unchanged (nothing was committed). -/
theorem upsert_storage_failure_swallowed (env : DbEnv) (now : Nat) (email : String)
    (password recovery_email secret_key link status message : Option String)
    (db : List AccountRow) (hfail : env.storageFails = true) :
    upsert_account env now email password recovery_email secret_key link status message db
      = Except.ok db := by
  cases env
  simp at hfail
  subst hfail
  simp [upsert_account]

/-- Witness for C7 (amended) at a concrete failing store. -/
theorem upsert_storage_failure_swallowed_witness :
    upsert_account ⟨true⟩ 3 "x@y.z" (some "pw") none none none (some "error") none [c6Row]
      = Except.ok [c6Row] :=
  upsert_storage_failure_swallowed ⟨true⟩ 3 "x@y.z" (some "pw") none none none (some "error") none
    [c6Row] (by decide)

/-! ### Claim C8 -/

/-- C8: exporting twice with no intervening writes is idempotent — the
second export rewrites every view file with byte-identical contents, because
each view is fully overwritten from the store contents alone and files
outside the six views are untouched. -/
theorem export_to_files_idempotent (rows : List AccountRow) (fs : String → String) :
    export_to_files rows (export_to_files rows fs) = export_to_files rows fs := by
  funext name
  simp only [export_to_files]
  split_ifs <;> rfl

/-! ### Orchestrator lemmas -/

theorem assignBatch_stop {α κ : Type} (cards : List κ) (cap : Nat) (st : OrchState)
    (l : List α) (h : cards.length ≤ st.cardIndex) :
    (assignBatch cards cap st l).2 = [] := by
  cases l with
  | nil => rfl
  | cons a rest =>
      by_cases hc : cap ≤ st.cardUsage
      · simp [assignBatch, hc, Nat.le_succ_of_le h]
      · simp [assignBatch, hc, h]

theorem assignBatch_append {α κ : Type} (cards : List κ) (cap : Nat) :
    ∀ (l1 l2 : List α) (st : OrchState),
      (assignBatch cards cap st (l1 ++ l2)).2
        = (assignBatch cards cap st l1).2 ++
          (assignBatch cards cap (assignBatch cards cap st l1).1 l2).2 := by
  intro l1
  induction l1 with
  | nil => intro l2 st; simp [assignBatch]
  | cons a rest ih =>
      intro l2 st
      by_cases hc : cap ≤ st.cardUsage
      · by_cases hb : cards.length ≤ st.cardIndex + 1
        · simp [assignBatch, hc, hb, assignBatch_stop cards cap ⟨st.cardIndex + 1, 0⟩ l2 hb]
        · simp [assignBatch, hc, hb, ih]
      · by_cases hb : cards.length ≤ st.cardIndex
        · simp [assignBatch, hc, hb, assignBatch_stop cards cap st l2 hb]
        · simp [assignBatch, hc, hb, ih]

theorem assignBatch_eq_assignSpec {α κ : Type} (cards : List κ) (cap : Nat) (hcap : 0 < cap) :
    ∀ (l : List α) (st : OrchState), st.cardUsage ≤ cap →
      (assignBatch cards cap st l).2
        = assignSpec (cards.length * cap) cap (st.cardIndex * cap + st.cardUsage) l := by
  intro l
  induction l with
  | nil => intro st _; rfl
  | cons a rest ih =>
      intro st hcu
      by_cases hc : cap ≤ st.cardUsage
      · have hecu : st.cardUsage = cap := Nat.le_antisymm hcu hc
        have hv : st.cardIndex * cap + st.cardUsage = (st.cardIndex + 1) * cap := by
          rw [hecu, Nat.succ_mul]
        by_cases hb : cards.length ≤ st.cardIndex + 1
        · have hnv : ¬ st.cardIndex * cap + st.cardUsage < cards.length * cap := by
            rw [hv]
            exact not_lt_of_le (Nat.mul_le_mul_right cap hb)
          simp [assignBatch, assignSpec, hc, hb, hnv]
        · have hlt : st.cardIndex * cap + st.cardUsage < cards.length * cap := by
            rw [hv]
            exact Nat.mul_lt_mul_of_lt_of_le (Nat.lt_of_not_le hb) (Nat.le_refl cap) hcap
          have hdiv : (st.cardIndex * cap + st.cardUsage) / cap = st.cardIndex + 1 := by
            rw [hv, Nat.mul_div_cancel _ hcap]
          simp only [assignBatch, assignSpec, if_pos hc, if_neg hb, if_pos hlt, hdiv]
          rw [ih ⟨st.cardIndex + 1, 1⟩ hcap]
          simp [Nat.succ_mul, hecu]
      · have hcu' : st.cardUsage < cap := Nat.lt_of_not_le hc
        by_cases hb : cards.length ≤ st.cardIndex
        · have hnv : ¬ st.cardIndex * cap + st.cardUsage < cards.length * cap := by
            intro hlt
            have : cards.length * cap ≤ st.cardIndex * cap := Nat.mul_le_mul_right cap hb
            omega
          simp [assignBatch, assignSpec, hc, hb, hnv]
        · have hlt : st.cardIndex * cap + st.cardUsage < cards.length * cap := by
            have h1 : st.cardIndex * cap + st.cardUsage < (st.cardIndex + 1) * cap := by
              rw [Nat.succ_mul]; omega
            have h2 : (st.cardIndex + 1) * cap ≤ cards.length * cap :=
              Nat.mul_le_mul_right cap (Nat.lt_of_not_le hb)
            omega
          have hdiv : (st.cardIndex * cap + st.cardUsage) / cap = st.cardIndex := by
            rw [Nat.add_comm, Nat.add_mul_div_right _ _ hcap,
              Nat.div_eq_of_lt hcu', Nat.zero_add]
          simp only [assignBatch, assignSpec, if_neg hc, if_neg hb, if_pos hlt, hdiv]
          rw [ih ⟨st.cardIndex, st.cardUsage + 1⟩ hcu']
          simp [Nat.add_assoc]

theorem assignSpec_length {α : Type} (m cap : Nat) :
    ∀ (l : List α) (v : Nat), (assignSpec m cap v l).length = min l.length (m - v) := by
  intro l
  induction l with
  | nil => intro v; simp [assignSpec]
  | cons a rest ih =>
      intro v
      by_cases h : v < m
      · simp [assignSpec, h, ih (v + 1)]; omega
      · simp [assignSpec, h]; omega

theorem assignSpec_map_fst {α : Type} (m cap : Nat) :
    ∀ (l : List α) (v : Nat), (assignSpec m cap v l).map Prod.fst = l.take (m - v) := by
  intro l
  induction l with
  | nil => intro v; simp [assignSpec]
  | cons a rest ih =>
      intro v
      by_cases h : v < m
      · have hm : m - v = (m - (v + 1)) + 1 := by omega
        simp [assignSpec, h, ih (v + 1), hm]
      · have hm : m - v = 0 := by omega
        simp [assignSpec, h, hm]

theorem assignSpec_card {α : Type} (m cap : Nat) :
    ∀ (l : List α) (v j : Nat) (p : α × Nat),
      (assignSpec m cap v l)[j]? = some p → p.2 = (v + j) / cap := by
  intro l
  induction l with
  | nil => intro v j p hp; simp [assignSpec] at hp
  | cons a rest ih =>
      intro v j p hp
      by_cases hv : v < m
      · cases j with
        | zero =>
            simp [assignSpec, hv] at hp
            rw [← hp]
            simp
        | succ j' =>
            simp only [assignSpec, if_pos hv, List.getElem?_cons_succ] at hp
            rw [ih (v + 1) j' p hp]
            congr 1
            omega
      · simp [assignSpec, hv] at hp

theorem dispatchPairs_append {α : Type} (t1 t2 : List (OrchEvent α)) :
    dispatchPairs (t1 ++ t2) = dispatchPairs t1 ++ dispatchPairs t2 := by
  simp [dispatchPairs]

theorem dispatchPairs_map_dispatch {α : Type} (ds : List (α × Nat)) :
    dispatchPairs (ds.map (fun p => OrchEvent.dispatch p.1 p.2)) = ds := by
  induction ds with
  | nil => rfl
  | cons d rest ih =>
      simp only [List.map_cons, dispatchPairs, List.filterMap_cons] at ih ⊢
      rw [ih]

theorem dispatchPairs_batchEvents {α : Type} (ds : List (α × Nat)) :
    dispatchPairs (batchEvents ds) = ds := by
  rw [batchEvents, dispatchPairs_append, dispatchPairs_map_dispatch]
  cases ds <;> simp [dispatchPairs]

theorem dispatchPairs_groupTraces {α κ : Type} (cards : List κ) (cap : Nat) :
    ∀ (bs : List (List α)) (st : OrchState),
      dispatchPairs (groupTraces cards cap st bs).flatten
        = (assignBatch cards cap st bs.flatten).2 := by
  intro bs
  induction bs with
  | nil => intro st; rfl
  | cons b rest ih =>
      intro st
      simp only [groupTraces, List.flatten_cons, dispatchPairs_append,
        dispatchPairs_batchEvents, ih]
      rw [assignBatch_append]

theorem assignBatch_map_fst {α κ : Type} (cards : List κ) (cap : Nat) :
    ∀ (l : List α) (st : OrchState),
      (assignBatch cards cap st l).2.map Prod.fst
        = l.take (assignBatch cards cap st l).2.length := by
  intro l
  induction l with
  | nil => intro st; rfl
  | cons a rest ih =>
      intro st
      by_cases hc : cap ≤ st.cardUsage
      · by_cases hb : cards.length ≤ st.cardIndex + 1
        · simp [assignBatch, hc, hb]
        · simp [assignBatch, hc, hb, ih]
      · by_cases hb : cards.length ≤ st.cardIndex
        · simp [assignBatch, hc, hb]
        · simp [assignBatch, hc, hb, ih]

theorem groupTraces_forall2 {α κ : Type} (cards : List κ) (cap : Nat) :
    ∀ (bs : List (List α)) (st : OrchState),
      List.Forall₂ (fun seg g =>
          (dispatchPairs seg).map Prod.fst = g.take (dispatchPairs seg).length ∧
          ((dispatchPairs seg).isEmpty = false →
            seg.getLast? = some OrchEvent.barrier))
        (groupTraces cards cap st bs) bs := by
  intro bs
  induction bs with
  | nil => intro st; exact List.Forall₂.nil
  | cons b rest ih =>
      intro st
      refine List.Forall₂.cons ⟨?_, ?_⟩ (ih _)
      · rw [dispatchPairs_batchEvents]
        exact assignBatch_map_fst cards cap b st
      · intro hne
        rw [dispatchPairs_batchEvents] at hne
        simp only [batchEvents, hne, Bool.false_eq_true, ite_false]
        exact List.getLast?_concat _

theorem chunksF_join {α : Type} (k : Nat) (hk : 0 < k) :
    ∀ (fuel : Nat) (l : List α), l.length ≤ fuel → (chunksF k fuel l).flatten = l := by
  intro fuel
  induction fuel with
  | zero =>
      intro l hl
      cases l with
      | nil => rfl
      | cons a l' => simp at hl
  | succ f ih =>
      intro l hl
      cases l with
      | nil => rfl
      | cons a l' =>
          simp only [chunksF, List.flatten_cons]
          rw [ih ((a :: l').drop k) (by simp at hl ⊢; omega), List.take_append_drop]

theorem chunks_join {α : Type} (k : Nat) (hk : 0 < k) (l : List α) :
    (chunks k l).flatten = l :=
  chunksF_join k hk l.length l (Nat.le_refl _)

theorem chunksF_length {α : Type} (k : Nat) (hk : 0 < k) :
    ∀ (fuel : Nat) (l : List α), l.length ≤ fuel →
      (chunksF k fuel l).length = (l.length + k - 1) / k := by
  intro fuel
  induction fuel with
  | zero =>
      intro l hl
      cases l with
      | nil => simp [chunksF, Nat.div_eq_of_lt (show k - 1 < k by omega)]
      | cons a l' => simp at hl
  | succ f ih =>
      intro l hl
      cases l with
      | nil => simp [chunksF, Nat.div_eq_of_lt (show k - 1 < k by omega)]
      | cons a l' =>
          simp only [chunksF, List.length_cons]
          rw [ih _ (by simp at hl ⊢; omega)]
          simp only [List.length_drop, List.length_cons]
          by_cases hnk : k ≤ l'.length + 1
          · have h1 : l'.length + 1 - k + k - 1 = l'.length := by omega
            have h2 : l'.length + 1 + k - 1 = l'.length + k := by omega
            rw [h1, h2, Nat.add_div_right _ hk]
          · have h1 : l'.length + 1 - k + k - 1 = k - 1 := by omega
            have h2 : l'.length + 1 + k - 1 = l'.length + k := by omega
            rw [h1, h2, Nat.add_div_right _ hk,
              Nat.div_eq_of_lt (show k - 1 < k by omega),
              Nat.div_eq_of_lt (show l'.length < k by omega)]

theorem chunks_length {α : Type} (k : Nat) (hk : 0 < k) (l : List α) :
    (chunks k l).length = (l.length + k - 1) / k :=
  chunksF_length k hk l.length l (Nat.le_refl _)

theorem chunksF_sizes {α : Type} (k : Nat) (hk : 0 < k) :
    ∀ (fuel : Nat) (l : List α), l.length ≤ fuel →
      ∀ g ∈ chunksF k fuel l, 0 < g.length ∧ g.length ≤ k := by
  intro fuel
  induction fuel with
  | zero =>
      intro l hl g hg
      cases l with
      | nil => simp [chunksF] at hg
      | cons a l' => simp at hl
  | succ f ih =>
      intro l hl g hg
      cases l with
      | nil => simp [chunksF] at hg
      | cons a l' =>
          simp only [chunksF, List.mem_cons] at hg
          rcases hg with hg | hg
          · subst hg
            simp only [List.length_take, List.length_cons]
            omega
          · exact ih _ (by simp at hl ⊢; omega) g hg

theorem chunksF_ne_nil {α : Type} (k fuel : Nat) (l : List α)
    (hne : l ≠ []) (hl : l.length ≤ fuel) : chunksF k fuel l ≠ [] := by
  cases l with
  | nil => exact absurd rfl hne
  | cons a l' =>
      cases fuel with
      | zero => simp at hl
      | succ f => simp [chunksF]

theorem chunksF_dropLast {α : Type} (k : Nat) (hk : 0 < k) :
    ∀ (fuel : Nat) (l : List α), l.length ≤ fuel →
      ∀ g ∈ (chunksF k fuel l).dropLast, g.length = k := by
  intro fuel
  induction fuel with
  | zero =>
      intro l hl g hg
      cases l with
      | nil => simp [chunksF] at hg
      | cons a l' => simp at hl
  | succ f ih =>
      intro l hl g hg
      cases l with
      | nil => simp [chunksF] at hg
      | cons a l' =>
          simp only [chunksF] at hg
          rcases ht : chunksF k f ((a :: l').drop k) with _ | ⟨th, tt⟩
          · rw [ht] at hg
            simp at hg
          · rw [ht] at hg
            rw [List.dropLast_cons₂] at hg
            rcases List.mem_cons.mp hg with hg1 | hg2
            · subst hg1
              have hdrop : (a :: l').drop k ≠ [] := by
                intro hnil
                rw [hnil] at ht
                simp [chunksF] at ht
              have hklt : k < (a :: l').length := by
                by_contra hle
                exact hdrop (List.drop_eq_nil_of_le (by omega))
              simp only [List.length_take]
              omega
            · rw [← ht] at hg2
              exact ih _ (by simp at hl ⊢; omega) g hg2

theorem chunks_dropLast {α : Type} (k : Nat) (hk : 0 < k) (l : List α) :
    ∀ g ∈ (chunks k l).dropLast, g.length = k :=
  chunksF_dropLast k hk l.length l (Nat.le_refl _)

/-! ### Claim C4 -/

/-- C4: with a positive per-instrument cap and positive concurrency, when
the accounts outnumber the pool capacity `P × C`, a full run dispatches
exactly the first `P × C` accounts (in input order), hence at most `P × C`
attempts in total, every later account (in the interrupted group and all
later groups) is never dispatched, and the `j`-th dispatched account uses
instrument `j / C` — instruments consumed in list order, each for at most
`C` accounts. -/
theorem orchestrator_pool_cap {α κ : Type} (cards : List κ) (cap k : Nat) (accounts : List α)
    (hcap : 0 < cap) (hk : 0 < k) (hover : cards.length * cap < accounts.length) :
    (dispatchPairs (process_all cards cap k accounts)).length = cards.length * cap ∧
    (dispatchPairs (process_all cards cap k accounts)).map Prod.fst
      = accounts.take (cards.length * cap) ∧
    ∀ (j : Nat) (p : α × Nat),
      (dispatchPairs (process_all cards cap k accounts))[j]? = some p →
        p.2 = j / cap := by
  have hd : dispatchPairs (process_all cards cap k accounts)
      = assignSpec (cards.length * cap) cap 0 accounts := by
    rw [process_all, dispatchPairs_groupTraces, chunks_join k hk,
      assignBatch_eq_assignSpec cards cap hcap accounts ⟨0, 0⟩ (Nat.zero_le _)]
    norm_num
  refine ⟨?_, ?_, ?_⟩
  · rw [hd, assignSpec_length]
    omega
  · rw [hd, assignSpec_map_fst, Nat.sub_zero]
  · intro j p hp
    rw [hd] at hp
    have := assignSpec_card (cards.length * cap) cap accounts 0 j p hp
    simpa using this

/-- Witness for C4: two instruments, cap 2, concurrency 3, seven accounts —
exactly the first 4 accounts are dispatched. -/
theorem orchestrator_pool_cap_witness :
    (dispatchPairs (process_all ["i1", "i2"] 2 3 (List.range 7))).length = 4 ∧
    (dispatchPairs (process_all ["i1", "i2"] 2 3 (List.range 7))).map Prod.fst
      = (List.range 7).take 4 :=
  ⟨(orchestrator_pool_cap ["i1", "i2"] 2 3 (List.range 7)
      (by decide) (by decide) (by decide)).1,
   (orchestrator_pool_cap ["i1", "i2"] 2 3 (List.range 7)
      (by decide) (by decide) (by decide)).2.1⟩

/-! ### Claim C5 -/

/-- C5: for positive concurrency `k` the orchestrator partitions the account
list into `ceil(N/k)` contiguous groups in input order (all of size `k`
except a possibly smaller non-empty final group), and the run's event trace
is exactly the per-group traces in order — each group's dispatches, then its
barrier (`asyncio.gather` awaited before the next group starts), each group
dispatching a prefix of its own accounts only. -/
theorem orchestrator_group_partition {α κ : Type} (cards : List κ) (cap k : Nat)
    (accounts : List α) (hk : 0 < k) :
    (chunks k accounts).flatten = accounts ∧
    (chunks k accounts).length = (accounts.length + k - 1) / k ∧
    (∀ g ∈ chunks k accounts, 0 < g.length ∧ g.length ≤ k) ∧
    (∀ g ∈ (chunks k accounts).dropLast, g.length = k) ∧
    process_all cards cap k accounts
      = (groupTraces cards cap ⟨0, 0⟩ (chunks k accounts)).flatten ∧
    List.Forall₂ (fun seg g =>
        (dispatchPairs seg).map Prod.fst = g.take (dispatchPairs seg).length ∧
        ((dispatchPairs seg).isEmpty = false → seg.getLast? = some OrchEvent.barrier))
      (groupTraces cards cap ⟨0, 0⟩ (chunks k accounts)) (chunks k accounts) :=
  ⟨chunks_join k hk accounts,
   chunks_length k hk accounts,
   chunksF_sizes k hk accounts.length accounts (Nat.le_refl _),
   chunks_dropLast k hk accounts,
   rfl,
   groupTraces_forall2 cards cap (chunks k accounts) ⟨0, 0⟩⟩

/-- Witness for C5: seven accounts with concurrency 3 are partitioned into
groups of sizes `[3, 3, 1]`, and the partition concatenates back to the
input. -/
theorem orchestrator_group_partition_witness :
    (chunks 3 (List.range 7)).flatten = List.range 7 ∧
    (chunks 3 (List.range 7)).map List.length = [3, 3, 1] :=
  ⟨(orchestrator_group_partition ([] : List String) 1 3 (List.range 7) (by decide)).1,
   by decide⟩

/-! ### Polling lemmas -/

theorem pollAux_trace_length_le (env : Nat → String → PollAttempt) (vid : String) :
    ∀ (rem i : Nat) (tok : String), (pollAux env vid rem i tok).trace.length ≤ rem := by
  intro rem
  induction rem with
  | zero => intro i tok; simp [pollAux]
  | succ r ih =>
      intro i tok
      cases henv : env i tok with
      | reply d =>
          cases ht : isTerminalStep d.currentStep
          · simp only [pollAux, henv, ht, Bool.false_eq_true, if_false, List.length_cons]
            exact Nat.succ_le_succ (ih (i + 1) _)
          · simp [pollAux, henv, ht]
      | timeout =>
          simp only [pollAux, henv, List.length_cons]
          exact Nat.succ_le_succ (ih (i + 1) _)
      | exn m =>
          simp only [pollAux, henv, List.length_cons]
          exact Nat.succ_le_succ (ih (i + 1) _)

theorem pollAux_elapsed (env : Nat → String → PollAttempt) (vid : String) :
    ∀ (rem i : Nat) (tok : String),
      (pollAux env vid rem i tok).elapsed = 2 * (pollAux env vid rem i tok).trace.length := by
  intro rem
  induction rem with
  | zero => intro i tok; simp [pollAux]
  | succ r ih =>
      intro i tok
      cases henv : env i tok with
      | reply d =>
          cases ht : isTerminalStep d.currentStep
          · simp only [pollAux, henv, ht, Bool.false_eq_true, if_false, List.length_cons]
            rw [ih (i + 1) _]
            ring
          · simp [pollAux, henv, ht]
      | timeout =>
          simp only [pollAux, henv, List.length_cons]
          rw [ih (i + 1) _]
          ring
      | exn m =>
          simp only [pollAux, henv, List.length_cons]
          rw [ih (i + 1) _]
          ring

theorem pollAux_cbs (env : Nat → String → PollAttempt) (vid : String) :
    ∀ (rem i : Nat) (tok : String),
      (pollAux env vid rem i tok).cbs.length = (pollAux env vid rem i tok).trace.length := by
  intro rem
  induction rem with
  | zero => intro i tok; simp [pollAux]
  | succ r ih =>
      intro i tok
      cases henv : env i tok with
      | reply d =>
          cases ht : isTerminalStep d.currentStep
          · simp only [pollAux, henv, ht, Bool.false_eq_true, if_false, List.length_cons]
            rw [ih (i + 1) _]
          · simp [pollAux, henv, ht]
      | timeout =>
          simp only [pollAux, henv, List.length_cons]
          rw [ih (i + 1) _]
      | exn m =>
          simp only [pollAux, henv, List.length_cons]
          rw [ih (i + 1) _]

theorem wellFormedTrace_cons (e : PollEntry) (rest : List PollEntry)
    (he : isReplyTerminal e.outcome = false) (hr : wellFormedTrace rest = true) :
    wellFormedTrace (e :: rest) = true := by
  cases rest <;> simp [wellFormedTrace, he, hr]

theorem pollAux_wellFormed (env : Nat → String → PollAttempt) (vid : String) :
    ∀ (rem i : Nat) (tok : String),
      wellFormedTrace (pollAux env vid rem i tok).trace = true := by
  intro rem
  induction rem with
  | zero => intro i tok; simp [pollAux, wellFormedTrace]
  | succ r ih =>
      intro i tok
      cases henv : env i tok with
      | reply d =>
          cases ht : isTerminalStep d.currentStep
          · simp only [pollAux, henv, ht, Bool.false_eq_true, if_false]
            exact wellFormedTrace_cons _ _ (by simp [isReplyTerminal, ht]) (ih (i + 1) _)
          · simp [pollAux, henv, ht, wellFormedTrace]
      | timeout =>
          simp only [pollAux, henv]
          exact wellFormedTrace_cons _ _ (by simp [isReplyTerminal]) (ih (i + 1) _)
      | exn m =>
          simp only [pollAux, henv]
          exact wellFormedTrace_cons _ _ (by simp [isReplyTerminal]) (ih (i + 1) _)

theorem pollAux_tokenChain (env : Nat → String → PollAttempt) (vid : String) :
    ∀ (rem i : Nat) (tok : String),
      tokenChain tok (pollAux env vid rem i tok).trace = true := by
  intro rem
  induction rem with
  | zero => intro i tok; simp [pollAux, tokenChain]
  | succ r ih =>
      intro i tok
      cases henv : env i tok with
      | reply d =>
          cases ht : isTerminalStep d.currentStep
          · cases hct : d.checkToken with
            | none =>
                simp only [pollAux, henv, ht, hct, Bool.false_eq_true, if_false, tokenChain]
                simp [nextToken, hct, ih (i + 1) tok]
            | some t =>
                simp only [pollAux, henv, ht, hct, Bool.false_eq_true, if_false, tokenChain]
                simp [nextToken, hct, ih (i + 1) t]
          · simp [pollAux, henv, ht, tokenChain]
      | timeout =>
          simp only [pollAux, henv, tokenChain]
          simp [nextToken, ih (i + 1) tok]
      | exn m =>
          simp only [pollAux, henv, tokenChain]
          simp [nextToken, ih (i + 1) tok]

theorem pollAux_timeout_iff (env : Nat → String → PollAttempt) (vid : String) :
    ∀ (rem i : Nat) (tok : String),
      ((pollAux env vid rem i tok).result = VerifyResult.errorMsg "Polling timeout (120s)" ↔
        ((pollAux env vid rem i tok).trace.length = rem ∧
          (pollAux env vid rem i tok).trace.all
            (fun e => !isReplyTerminal e.outcome) = true)) := by
  intro rem
  induction rem with
  | zero => intro i tok; simp [pollAux]
  | succ r ih =>
      intro i tok
      cases henv : env i tok with
      | reply d =>
          cases ht : isTerminalStep d.currentStep
          · simp only [pollAux, henv, ht, Bool.false_eq_true, if_false, List.length_cons,
              List.all_cons, isReplyTerminal, Bool.not_false, Bool.true_and,
              Nat.succ_inj]
            exact ih (i + 1) _
          · simp [pollAux, henv, ht, isReplyTerminal]
      | timeout =>
          simp only [pollAux, henv, List.length_cons, List.all_cons, isReplyTerminal,
            Bool.not_false, Bool.true_and, Nat.succ_inj]
          exact ih (i + 1) _
      | exn m =>
          simp only [pollAux, henv, List.length_cons, List.all_cons, isReplyTerminal,
            Bool.not_false, Bool.true_and, Nat.succ_inj]
          exact ih (i + 1) _

theorem getLast?_cons_of_getLast? {α : Type} (e : α) (l : List α) (x : α)
    (h : l.getLast? = some x) : (e :: l).getLast? = some x := by
  cases l with
  | nil => simp at h
  | cons y ys => rw [List.getLast?_cons_cons]; exact h

theorem pollAux_fromApi (env : Nat → String → PollAttempt) (vid : String) :
    ∀ (rem i : Nat) (tok : String) (d : ApiData),
      (pollAux env vid rem i tok).result = VerifyResult.fromApi d →
        isTerminalStep d.currentStep = true ∧
        ∃ t2, (pollAux env vid rem i tok).trace.getLast?
            = some ⟨t2, PollAttempt.reply d⟩ := by
  intro rem
  induction rem with
  | zero => intro i tok d h; simp [pollAux] at h
  | succ r ih =>
      intro i tok d h
      cases henv : env i tok with
      | reply d0 =>
          cases ht : isTerminalStep d0.currentStep
          · simp only [pollAux, henv, ht, Bool.false_eq_true, if_false] at h ⊢
            obtain ⟨hterm, t2, hlast⟩ := ih (i + 1) _ d h
            exact ⟨hterm, t2, getLast?_cons_of_getLast? _ _ _ hlast⟩
          · simp only [pollAux, henv, ht, if_true] at h ⊢
            have hd : d0 = d := by
              have := h
              simp at this
              exact this
            subst hd
            exact ⟨ht, tok, by simp⟩
      | timeout =>
          simp only [pollAux, henv] at h ⊢
          obtain ⟨hterm, t2, hlast⟩ := ih (i + 1) tok d h
          exact ⟨hterm, t2, getLast?_cons_of_getLast? _ _ _ hlast⟩
      | exn m =>
          simp only [pollAux, henv] at h ⊢
          obtain ⟨hterm, t2, hlast⟩ := ih (i + 1) tok d h
          exact ⟨hterm, t2, getLast?_cons_of_getLast? _ _ _ hlast⟩

theorem pollAux_early_terminal (env : Nat → String → PollAttempt) (vid : String) :
    ∀ (rem i : Nat) (tok : String),
      (pollAux env vid rem i tok).trace.length < rem →
        ∃ d, (pollAux env vid rem i tok).result = VerifyResult.fromApi d := by
  intro rem
  induction rem with
  | zero => intro i tok h; simp [pollAux] at h
  | succ r ih =>
      intro i tok h
      cases henv : env i tok with
      | reply d =>
          cases ht : isTerminalStep d.currentStep
          · simp only [pollAux, henv, ht, Bool.false_eq_true, if_false,
              List.length_cons] at h ⊢
            exact ih (i + 1) _ (Nat.lt_of_succ_lt_succ h)
          · exact ⟨d, by simp [pollAux, henv, ht]⟩
      | timeout =>
          simp only [pollAux, henv, List.length_cons] at h ⊢
          exact ih (i + 1) tok (Nat.lt_of_succ_lt_succ h)
      | exn m =>
          simp only [pollAux, henv, List.length_cons] at h ⊢
          exact ih (i + 1) tok (Nat.lt_of_succ_lt_succ h)

/-! ### Claim C3 -/

/-- C3: the polling loop performs at most 60 attempts; each attempt sleeps
exactly 2 time units (total elapsed = 2 × attempts); the progress callback
is invoked exactly once per attempt; only the final attempt may carry a
terminal reply (timeouts and other exceptions never cut the loop short, they
only consume an attempt); the continuation token sent at each attempt is the
chain started from the initial token and refreshed exactly by the replies
that carry a new one; the loop returns the timeout error exactly when all 60
attempts pass without a terminal step; a terminal return carries the
terminal payload of its last attempt; and a run of fewer than 60 attempts
always returns a terminal payload. -/
theorem poll_status_contract (env : Nat → String → PollAttempt) (tok vid : String) :
    (poll_status env tok vid).trace.length ≤ 60 ∧
    (poll_status env tok vid).elapsed = 2 * (poll_status env tok vid).trace.length ∧
    (poll_status env tok vid).cbs.length = (poll_status env tok vid).trace.length ∧
    wellFormedTrace (poll_status env tok vid).trace = true ∧
    tokenChain tok (poll_status env tok vid).trace = true ∧
    ((poll_status env tok vid).result = VerifyResult.errorMsg "Polling timeout (120s)" ↔
      ((poll_status env tok vid).trace.length = 60 ∧
        (poll_status env tok vid).trace.all (fun e => !isReplyTerminal e.outcome) = true)) ∧
    (∀ d, (poll_status env tok vid).result = VerifyResult.fromApi d →
      isTerminalStep d.currentStep = true ∧
      ∃ t2, (poll_status env tok vid).trace.getLast? = some ⟨t2, PollAttempt.reply d⟩) ∧
    ((poll_status env tok vid).trace.length < 60 →
      ∃ d, (poll_status env tok vid).result = VerifyResult.fromApi d) :=
  ⟨pollAux_trace_length_le env vid 60 0 tok,
   pollAux_elapsed env vid 60 0 tok,
   pollAux_cbs env vid 60 0 tok,
   pollAux_wellFormed env vid 60 0 tok,
   pollAux_tokenChain env vid 60 0 tok,
   pollAux_timeout_iff env vid 60 0 tok,
   fun d => pollAux_fromApi env vid 60 0 tok d,
   pollAux_early_terminal env vid 60 0 tok⟩

/-- Witness for C3: a poll run whose first attempt times out and whose
second attempt returns a terminal success takes 2 attempts, slept 4 time
units, invoked the callback twice, and returns the terminal payload. -/
theorem poll_status_contract_witness :
    (poll_status c3Env "t0" "v1").trace.length = 2 ∧
    isTerminalStep c3Data.currentStep = true ∧
    (∃ t2, (poll_status c3Env "t0" "v1").trace.getLast?
        = some ⟨t2, PollAttempt.reply c3Data⟩) ∧
    (∃ d, (poll_status c3Env "t0" "v1").result = VerifyResult.fromApi d) ∧
    (poll_status c3Env "t0" "v1").elapsed = 4 ∧
    (poll_status c3Env "t0" "v1").cbs.length = 2 := by
  have h := poll_status_contract c3Env "t0" "v1"
  have hfrom := h.2.2.2.2.2.2.1 c3Data (by decide)
  have hearly := h.2.2.2.2.2.2.2 (by decide)
  exact ⟨by decide, hfrom.1, hfrom.2, hearly, by decide, by decide⟩

/-! ### Result-dictionary lemmas -/

theorem dget_dput (k k2 : String) (v : VerifyResult) :
    ∀ m, dget k2 (dput k v m) = if k = k2 then some v else dget k2 m := by
  intro m
  induction m with
  | nil => by_cases h : k = k2 <;> simp [dput, dget, h]
  | cons p rest ih =>
      obtain ⟨k3, v3⟩ := p
      by_cases h3 : k3 = k
      · subst h3
        by_cases h : k3 = k2 <;> simp [dput, dget, h]
      · by_cases h2 : k3 = k2
        · subst h2
          have hk : ¬ k = k3 := fun he => h3 he.symm
          simp [dput, dget, h3, hk]
        · simp [dput, dget, h3, h2, ih]

theorem dhas_dput (k k2 : String) (v : VerifyResult) (m : List (String × VerifyResult)) :
    dhas k2 (dput k v m) = (decide (k = k2) || dhas k2 m) := by
  by_cases h : k = k2 <;> simp [dhas, dget_dput, h]

theorem dget_allError_fold (msg : String) (vid : String) :
    ∀ (ids : List String) (m0 : List (String × VerifyResult)),
      dget vid (ids.foldl (fun m v2 => dput v2 (VerifyResult.errorMsg msg) m) m0)
        = if vid ∈ ids then some (VerifyResult.errorMsg msg) else dget vid m0 := by
  intro ids
  induction ids with
  | nil => intro m0; simp
  | cons a rest ih =>
      intro m0
      simp only [List.foldl_cons]
      rw [ih]
      by_cases hmem : vid ∈ rest
      · simp [hmem]
      · by_cases ha : a = vid
        · simp [hmem, ha, dget_dput]
        · have ha2 : ¬ vid = a := fun h => ha h.symm
          simp [hmem, ha, ha2, dget_dput, List.mem_cons]

theorem dget_allError (ids : List String) (msg : String) (vid : String) (h : vid ∈ ids) :
    dget vid (allError ids msg) = some (VerifyResult.errorMsg msg) := by
  simp [allError, dget_allError_fold, h]

theorem dhas_allError (ids : List String) (msg : String) (vid : String) (h : vid ∈ ids) :
    dhas vid (allError ids msg) = true := by
  simp [dhas, dget_allError ids msg vid h]

theorem dhas_fillMissing_mono (msg : String) (vid : String) :
    ∀ (ids : List String) (m0 : List (String × VerifyResult)),
      dhas vid m0 = true → dhas vid (fillMissing ids msg m0) = true := by
  intro ids
  induction ids with
  | nil => intro m0 h; simpa [fillMissing] using h
  | cons a rest ih =>
      intro m0 h
      have hstep : dhas vid
          (if dhas a m0 then m0 else dput a (VerifyResult.errorMsg msg) m0) = true := by
        by_cases ha : dhas a m0 <;> simp [ha, dhas_dput, h]
      simpa only [fillMissing, List.foldl_cons] using ih _ hstep

theorem dhas_fillMissing_mem (msg : String) (vid : String) :
    ∀ (ids : List String) (m0 : List (String × VerifyResult)),
      vid ∈ ids → dhas vid (fillMissing ids msg m0) = true := by
  intro ids
  induction ids with
  | nil => intro m0 h; simp at h
  | cons a rest ih =>
      intro m0 hmem
      rcases List.mem_cons.mp hmem with ha | hrest
      · subst ha
        have hstep : dhas vid
            (if dhas vid m0 then m0 else dput vid (VerifyResult.errorMsg msg) m0) = true := by
          by_cases h0 : dhas vid m0 <;> simp [h0, dhas_dput]
        simpa only [fillMissing, List.foldl_cons]
          using dhas_fillMissing_mono msg vid rest _ hstep
      · simpa only [fillMissing, List.foldl_cons] using ih _ hrest

theorem dhas_handle_api_response (pollEnv : String → Nat → String → PollAttempt)
    (d : ApiData) (vid : String) (m : List (String × VerifyResult)) :
    dhas vid (handle_api_response pollEnv d m)
      = (yieldsResult vid d || dhas vid m) := by
  obtain ⟨vv, step, msg, ctok⟩ := d
  cases vv with
  | none => simp [handle_api_response, yieldsResult]
  | some v =>
      simp only [handle_api_response, yieldsResult]
      by_cases hp : step = some "pending" ∧ ctok.isSome = true
      · obtain ⟨hp1, hp2⟩ := hp
        subst hp1
        simp [hp2, dhas_dput]
      · by_cases hterm : step = some "success" ∨ step = some "error"
        · have hnp : ¬ step = some "pending" := by
            rcases hterm with h | h <;> subst h <;> simp
          simp [hp, hterm, hnp, dhas_dput]
          rcases hterm with h | h <;> simp [h]
        · have h1 : ¬ step = some "success" := fun h => hterm (Or.inl h)
          have h2 : ¬ step = some "error" := fun h => hterm (Or.inr h)
          by_cases hnp : step = some "pending"
          · have hct : ctok.isSome = false := by
              cases hcc : ctok.isSome with
              | false => rfl
              | true => exact absurd ⟨hnp, hcc⟩ hp
            simp [hp, hterm, hnp, h1, h2, hct]
          · simp [hp, hterm, hnp, h1, h2]

theorem dhas_processStream (pollEnv : String → Nat → String → PollAttempt) (vid : String) :
    ∀ (evs : List ApiData) (m : List (String × VerifyResult)),
      dhas vid (processStream pollEnv evs m)
        = (evs.any (yieldsResult vid) || dhas vid m) := by
  intro evs
  induction evs with
  | nil => intro m; simp [processStream]
  | cons d rest ih =>
      intro m
      have hstep : processStream pollEnv (d :: rest) m
          = processStream pollEnv rest (handle_api_response pollEnv d m) := by
        simp [processStream]
      rw [hstep, ih, dhas_handle_api_response]
      simp [List.any_cons, Bool.or_assoc, Bool.or_comm, Bool.or_left_comm]

/-! ### Claim C1 -/

/-- C1 counterexample: submitting `["a1"]` against a server whose response
is HTTP 200 with a stream that ends cleanly without delivering any event
leaves the result map empty — the submitted identifier `a1` is omitted, with
neither a terminal nor a timeout entry, because `verify_batch` only fills in
missing identifiers inside its exception handler. -/
theorem verify_batch_omits_id :
    dget "a1" (verify_batch c1Env ["a1"]).1 = none := by decide

/-- C1 (amended): when the HTTP interaction fails (connection error, failed
forced refresh, non-200 response, or a stream cut off by an exception) every
submitted identifier does receive a result; but when the stream completes
normally, the result map contains an entry for an identifier exactly when
the stream delivered for it a terminal event or a pending event carrying a
continuation token — an identifier whose events end non-terminally, or whose
pending event lacks a continuation token, is omitted. -/
theorem verify_batch_result_domain (env : BatchEnv) (ids : List String) (vid : String)
    (hvid : vid ∈ ids) :
    (cleanEvents env = none → dhas vid (verify_batch env ids).1 = true) ∧
    (∀ evs, cleanEvents env = some evs →
      (dhas vid (verify_batch env ids).1 = true ↔ evs.any (yieldsResult vid) = true)) := by
  cases hpost : env.post1 with
  | connError m =>
      constructor
      · intro _
        simp only [verify_batch, hpost]
        exact dhas_fillMissing_mem m vid ids [] hvid
      · intro evs2 hce
        simp [cleanEvents, hpost] at hce
  | resp code body evs intr =>
      by_cases hauth : code = 403 ∨ code = 401
      · cases hr2 : env.refresh2 with
        | false =>
            constructor
            · intro _
              simp only [verify_batch, hpost, if_pos hauth, hr2, Bool.false_eq_true,
                if_false]
              exact dhas_allError ids _ vid hvid
            · intro evs2 hce
              simp [cleanEvents, hpost, hauth, hr2] at hce
        | true =>
            cases hpost2 : env.post2 with
            | connError m =>
                constructor
                · intro _
                  simp only [verify_batch, hpost, if_pos hauth, hr2, if_true, hpost2]
                  exact dhas_fillMissing_mem m vid ids [] hvid
                · intro evs2 hce
                  simp [cleanEvents, hpost, hauth, hr2, hpost2] at hce
            | resp c2 b2 e2 i2 =>
                by_cases h200 : c2 = 200
                · subst h200
                  cases i2 with
                  | some mexc =>
                      constructor
                      · intro _
                        simp only [verify_batch, hpost, if_pos hauth, hr2, if_true,
                          hpost2, finishResp]
                        simp only [ne_eq, not_true_eq_false, if_false]
                        exact dhas_fillMissing_mem mexc vid ids _ hvid
                      · intro evs2 hce
                        simp [cleanEvents, hpost, hauth, hr2, hpost2] at hce
                  | none =>
                      constructor
                      · intro hce
                        simp [cleanEvents, hpost, hauth, hr2, hpost2] at hce
                      · intro evs2 hce
                        have he : evs2 = e2 := by
                          simp [cleanEvents, hpost, hauth, hr2, hpost2] at hce
                          exact hce.symm
                        subst he
                        simp only [verify_batch, hpost, if_pos hauth, hr2, if_true,
                          hpost2, finishResp]
                        simp only [ne_eq, not_true_eq_false, if_false]
                        rw [dhas_processStream]
                        simp [dhas, dget]
                · constructor
                  · intro _
                    simp only [verify_batch, hpost, if_pos hauth, hr2, if_true,
                      hpost2, finishResp]
                    simp only [ne_eq, h200, not_false_eq_true, if_true]
                    exact dhas_allError ids _ vid hvid
                  · intro evs2 hce
                    simp [cleanEvents, hpost, hauth, hr2, hpost2, h200] at hce
      · by_cases h200 : code = 200
        · subst h200
          cases intr with
          | some mexc =>
              constructor
              · intro _
                simp only [verify_batch, hpost, if_neg hauth, finishResp]
                simp only [ne_eq, not_true_eq_false, if_false]
                exact dhas_fillMissing_mem mexc vid ids _ hvid
              · intro evs2 hce
                simp [cleanEvents, hpost, hauth] at hce
          | none =>
              constructor
              · intro hce
                simp [cleanEvents, hpost, hauth] at hce
              · intro evs2 hce
                have he : evs2 = evs := by
                  simp [cleanEvents, hpost, hauth] at hce
                  exact hce.symm
                subst he
                simp only [verify_batch, hpost, if_neg hauth, finishResp]
                simp only [ne_eq, not_true_eq_false, if_false]
                rw [dhas_processStream]
                simp [dhas, dget]
        · constructor
          · intro _
            simp only [verify_batch, hpost, if_neg hauth, finishResp]
            simp only [ne_eq, h200, not_false_eq_true, if_true]
            exact dhas_allError ids _ vid hvid
          · intro evs2 hce
            simp [cleanEvents, hpost, hauth, h200] at hce

/-- Witness for C1 (amended): a clean stream carrying a terminal success
event for the submitted identifier produces an entry for it. -/
theorem verify_batch_result_domain_witness :
    dhas "a1" (verify_batch c1WitnessEnv ["a1"]).1 = true :=
  ((verify_batch_result_domain c1WitnessEnv ["a1"] "a1" (by simp)).2
    [c1SuccessEvent] (by decide)).mpr (by decide)

/-! ### Claim C2 -/

/-- C2: when the first submission response is 401 or 403, the client makes
at most two POSTs in total: exactly one retry when the forced refresh
succeeds, none when it fails (then every identifier gets the refresh-failure
error); and when the retry itself comes back 401/403 every identifier gets
the HTTP error entry — there is never a third attempt. -/
theorem verify_batch_auth_retry (env : BatchEnv) (ids : List String)
    (c : Nat) (body : String) (evs : List ApiData) (intr : Option String)
    (hpost : env.post1 = PostResponse.resp c body evs intr)
    (hauth : c = 403 ∨ c = 401) :
    (verify_batch env ids).2 ≤ 2 ∧
    (env.refresh2 = false →
      (verify_batch env ids).2 = 1 ∧
      ∀ vid ∈ ids, dget vid (verify_batch env ids).1
        = some (VerifyResult.errorMsg "Token expired and refresh failed")) ∧
    (env.refresh2 = true → (verify_batch env ids).2 = 2) ∧
    (∀ (c2 : Nat) (b2 : String) (evs2 : List ApiData) (intr2 : Option String),
      env.refresh2 = true → env.post2 = PostResponse.resp c2 b2 evs2 intr2 →
      (c2 = 403 ∨ c2 = 401) →
      ∀ vid ∈ ids, dget vid (verify_batch env ids).1
        = some (VerifyResult.errorMsg ("HTTP " ++ toString c2 ++ ": " ++ b2.take 200))) := by
  refine ⟨?_, ?_, ?_, ?_⟩
  · simp only [verify_batch, hpost, if_pos hauth]
    cases env.refresh2
    · simp
    · cases env.post2 <;> simp
  · intro hr2
    simp only [verify_batch, hpost, if_pos hauth, hr2, Bool.false_eq_true, if_false]
    exact ⟨trivial, fun vid hv => dget_allError ids _ vid hv⟩
  · intro hr2
    simp only [verify_batch, hpost, if_pos hauth, hr2, if_true]
    cases env.post2 <;> simp
  · intro c2 b2 evs2 intr2 hr2 hp2 hauth2 vid hv
    have hne : c2 ≠ 200 := by rcases hauth2 with h | h <;> omega
    simp only [verify_batch, hpost, if_pos hauth, hr2, if_true, hp2, finishResp]
    simp only [ne_eq, hne, not_false_eq_true, if_true]
    exact dget_allError ids _ vid hv

/-- Witness for C2: a 403, a successful forced refresh, then a 403 on the
retry — two POSTs and an error entry for the submitted identifier. -/
theorem verify_batch_auth_retry_witness :
    (verify_batch c2Env ["a"]).2 = 2 ∧
    dget "a" (verify_batch c2Env ["a"]).1
      = some (VerifyResult.errorMsg ("HTTP " ++ toString 403 ++ ": " ++ "denied2".take 200)) :=
  ⟨(verify_batch_auth_retry c2Env ["a"] 403 "denied1" [] none rfl (Or.inl rfl)).2.2.1 rfl,
   (verify_batch_auth_retry c2Env ["a"] 403 "denied1" [] none rfl (Or.inl rfl)).2.2.2
     403 "denied2" [] none rfl rfl (Or.inl rfl) "a" (by simp)⟩

/-! ### Claim C10 -/

/-- C10: `SheerIDVerifier` defines no `verify_single` method, so the
attribute access in the link_ready handler always raises, the exception is
caught, and the handler reports failure for every account routed through the
link_ready path — regardless of whether the link was extracted and of what
the rest of the flow would have done.  No account can progress to verified
or subscribed through this handler. -/
theorem link_ready_always_fails :
    (∀ (link : Option String) (onVerifySingle : Bool × String),
      (handle_link_ready link onVerifySingle).1 = false) ∧
    sheerIDVerifierMethods.contains "verify_single" = false := by
  constructor
  · intro link onV
    have hm : "verify_single" ∉ sheerIDVerifierMethods := by decide
    cases link with
    | none => rfl
    | some l => simp [handle_link_ready, getattrSheerIDVerifier, hm]
  · decide

end AutoGemini
